import Mathlib

/-!
# HMAC-authenticated framing: client frame construction and server verification loop

A shallow embedding of `hmac_client.cpp` and `hmac_server.cpp`.

* A `std::string` and a `std::vector<unsigned char>` are both lists of bytes (`Fin 256`).
* The OpenSSL primitive behind `calculate_hmac` (`HMAC_Init_ex` / `HMAC_Update` / `HMAC_Final`
  with `EVP_sha256()`) is not part of the repository. Every definition takes it as the parameter
  `HMAC : key → data → mac`; `hmacSha256` below is the RFC 2104 / FIPS 180-4 function, used where
  a statement is evaluated on concrete bytes.
* The socket is the environment: each loop iteration is given what `recv` finds queued on the
  connection and what `send` returns. One `recv` returns at most the 8192 bytes of the buffer.
* The counters are `int`, 32 bits wide. Signed overflow is undefined behaviour in C++; the model
  takes the two's-complement wrap-around that `++` produces on the usual targets.
* Console output and the `std::chrono` timers are not modelled; `hex_to_bin` (never called) is
  left out.
-/

namespace Hmac

/-- One `char` / `unsigned char`. -/
abbrev Byte := Fin 256

/-- The delimiter character `':'`. -/
def colon : Byte := 58

/-! ## `bin_to_hex` -/

/-- The digits that the `x` conversion of `printf` produces for a value: lowercase hexadecimal,
most significant digit first, at least one digit. -/
def hexDigits (value : Nat) : List Byte :=
  (Nat.toDigits 16 value).map (fun c => Fin.ofNat c.toNat)

/-- The characters `sprintf(hex_byte, "%02x", byte)` stores: the hexadecimal digits of `byte`,
padded on the left with `'0'` to a minimum width of two. -/
def sprintf_02x (byte : Byte) : List Byte :=
  let digits := hexDigits byte.val
  List.replicate (2 - digits.length) 48 ++ digits

/-- `bin_to_hex`: the loop `for (auto byte : binary) { sprintf(...); hex += hex_byte; }`. -/
def bin_to_hex (binary : List Byte) : List Byte :=
  binary.foldl (fun hex byte => hex ++ sprintf_02x byte) []

/-! ## `calculate_hmac` -/

/-- `EVP_MAX_MD_SIZE` of OpenSSL. -/
def EVP_MAX_MD_SIZE : Nat := 64

/-- `calculate_hmac(message, key)`: a zeroed `digest` of `EVP_MAX_MD_SIZE` bytes, into which
`HMAC_Final` writes the MAC and reports its length `len`; then `digest.resize(len)`. -/
def calculate_hmac (HMAC : List Byte → List Byte → List Byte) (message key : List Byte) :
    List Byte :=
  let digest : List Byte := List.replicate EVP_MAX_MD_SIZE 0
  let mac := HMAC key message
  let len := mac.length
  let digest := mac ++ digest.drop len
  digest.take len ++ List.replicate (len - digest.length) 0

/-! ## Client: frame construction -/

/-- The string `hmac_hex + ":" + message` that the client sends for a computed tag `hmac`
(`hmac_client.cpp`, lines 103-107). -/
def build_payload (hmac message : List Byte) : List Byte :=
  let hmac_hex := bin_to_hex hmac
  hmac_hex ++ [colon] ++ message

/-- One client iteration up to the `send` call: compute the tag of `message` under `secret_key`
and build the frame (`hmac_client.cpp`, lines 97-107). -/
def client_payload (HMAC : List Byte → List Byte → List Byte) (secret_key message : List Byte) :
    List Byte :=
  let hmac := calculate_hmac HMAC message secret_key
  build_payload hmac message

/-! ## Server: frame parsing -/

/-- `std::string::find(ch)`: the position of the first occurrence of `ch`, `none` for `npos`. -/
def find : List Byte → Byte → Option Nat
  | [], _ => none
  | c :: rest, ch => if c = ch then some 0 else (find rest ch).map (· + 1)

/-- `std::string::substr(pos, count)`, with `count = none` for the default `npos`: the characters
from `pos` on, at most `count` of them; `none` stands for the `std::out_of_range` exception that
is thrown when `pos > size()`. -/
def substr (s : List Byte) (pos : Nat) (count : Option Nat) : Option (List Byte) :=
  if pos > s.length then none
  else
    match count with
    | none => some (s.drop pos)
    | some n => some ((s.drop pos).take n)

/-- Outcome of parsing one received string. -/
inductive Parsed where
  /-- No delimiter: "Invalid message format". -/
  | invalid_format
  /-- A `substr` call threw `std::out_of_range`. -/
  | out_of_range
  /-- The two parts `received_hmac_hex` and `message`. -/
  | ok (received_hmac_hex message : List Byte)
deriving DecidableEq, Repr

/-- The parsing step of the server loop (`hmac_server.cpp`, lines 132-140). -/
def parse (payload : List Byte) : Parsed :=
  match find payload colon with
  | none => .invalid_format
  | some delimiter_pos =>
    match substr payload 0 (some delimiter_pos), substr payload (delimiter_pos + 1) none with
    | some received_hmac_hex, some message => .ok received_hmac_hex message
    | _, _ => .out_of_range

/-! ## Server: the session loop -/

/-- What one call of `recv` finds on the connection. -/
inductive Incoming where
  /-- Bytes are queued on the connection (the call returns as many as fit the buffer). -/
  | queued (data : List Byte)
  /-- The peer has closed the connection: the call returns `0`. -/
  | shutdown
  /-- The call fails: it returns `-1`. -/
  | failure
deriving DecidableEq, Repr

/-- `recv(client_socket, buffer.data(), buffer.size(), 0)`: copies at most `buffer.size()` queued
bytes to the start of `buffer` and returns their number; returns the new buffer contents too.
(A real call blocks while nothing is queued on an open connection, so `queued []` is not
observed; the model returns `0` for it.) -/
def recv (incoming : Incoming) (buffer : List Byte) : Int × List Byte :=
  match incoming with
  | .queued data =>
    let got := data.take buffer.length
    ((got.length : Int), got ++ buffer.drop got.length)
  | .shutdown => (0, buffer)
  | .failure => (-1, buffer)

/-- The environment of one loop iteration: what `recv` finds, and what `send` returns if it is
called. -/
structure Env where
  incoming : Incoming
  send_result : Int
deriving DecidableEq, Repr

/-- The acknowledgement `"OK"`. -/
def ack_ok : List Byte := [79, 75]

/-- The acknowledgement `"FAIL"`. -/
def ack_fail : List Byte := [70, 65, 73, 76]

/-- Value of a 32-bit `int` after an arithmetic result `x`: two's-complement wrap-around into
`-2147483648 .. 2147483647`. -/
def wrapInt32 (x : Int) : Int := (x + 2147483648) % 4294967296 - 2147483648

/-- The variables of `main` that live across iterations of the server loop, and the record of
the `send` calls made so far (argument and returned value, oldest first). -/
structure ServerState where
  message_count : Int
  valid_hmacs : Int
  invalid_hmacs : Int
  buffer : List Byte
  sent : List (List Byte × Int)
deriving DecidableEq, Repr

/-- The state when the loop is entered (`hmac_server.cpp`, lines 106-114). -/
def initial : ServerState :=
  { message_count := 0, valid_hmacs := 0, invalid_hmacs := 0,
    buffer := List.replicate 8192 0, sent := [] }

/-- How an iteration leaves the loop body. -/
inductive Flow where
  /-- The end of the body is reached: the loop goes back to `recv`. -/
  | next
  /-- A `break` statement: the loop is left. -/
  | broke
  /-- An uncaught exception. -/
  | thrown
deriving DecidableEq, Repr

/-- The comparison of the server (`hmac_server.cpp`, lines 144-150): the value of `hmac_valid`. -/
def verify (HMAC : List Byte → List Byte → List Byte) (secret_key received_hmac_hex
    message : List Byte) : Bool :=
  let expected_hmac := calculate_hmac HMAC message secret_key
  let expected_hmac_hex := bin_to_hex expected_hmac
  decide (received_hmac_hex = expected_hmac_hex)

/-- The loop body after a successful `recv`, for the received string `payload`
(`hmac_server.cpp`, lines 131-169). The value that `send` returns is recorded next to the
acknowledgement; the source does not look at it. -/
def process (HMAC : List Byte → List Byte → List Byte) (secret_key : List Byte)
    (st : ServerState) (payload : List Byte) (send_result : Int) : Flow × ServerState :=
  match parse payload with
  | .invalid_format => (.broke, st)
  | .out_of_range => (.thrown, st)
  | .ok received_hmac_hex message =>
    let hmac_valid := verify HMAC secret_key received_hmac_hex message
    let st :=
      if hmac_valid then { st with valid_hmacs := wrapInt32 (st.valid_hmacs + 1) }
      else { st with invalid_hmacs := wrapInt32 (st.invalid_hmacs + 1) }
    let ack := if hmac_valid then ack_ok else ack_fail
    let st := { st with sent := st.sent ++ [(ack, send_result)] }
    (.next, { st with message_count := wrapInt32 (st.message_count + 1) })

/-- One iteration of `while (true)` in the server (`hmac_server.cpp`, lines 116-170). -/
def iteration (HMAC : List Byte → List Byte → List Byte) (secret_key : List Byte)
    (st : ServerState) (env : Env) : Flow × ServerState :=
  let (bytes_received, buffer) := recv env.incoming st.buffer
  let st := { st with buffer := buffer }
  if bytes_received ≤ 0 then (.broke, st)
  else process HMAC secret_key st (st.buffer.take bytes_received.toNat) env.send_result

/-- The server loop run against the environments of its successive iterations. It stops at the
first iteration that leaves the loop; when the list is used up the server is back at `recv`. -/
def session (HMAC : List Byte → List Byte → List Byte) (secret_key : List Byte) :
    List Env → ServerState → Flow × ServerState
  | [], st => (.next, st)
  | env :: envs, st =>
    match iteration HMAC secret_key st env with
    | (.next, st') => session HMAC secret_key envs st'
    | (flow, st') => (flow, st')

/-- The string `payload(buffer.data(), bytes_received)` that an iteration builds from what `recv`
stored (`hmac_server.cpp`, line 131). -/
def received (st : ServerState) (env : Env) : List Byte :=
  (recv env.incoming st.buffer).2.take (recv env.incoming st.buffer).1.toNat

/-! ## HMAC-SHA-256

The function that OpenSSL computes for `HMAC_Init_ex(ctx, key, len, EVP_sha256(), nullptr)`,
`HMAC_Update`, `HMAC_Final`, written from FIPS 180-4 (SHA-256) and RFC 2104 (HMAC). Words are
natural numbers below `2 ^ 32`. -/

namespace SHA256

/-- Round constants (FIPS 180-4, section 4.2.2), in decimal: the first is `0x428a2f98`. -/
def K : List Nat :=
  [1116352408, 1899447441, 3049323471, 3921009573, 961987163, 1508970993,
   2453635748, 2870763221, 3624381080, 310598401, 607225278, 1426881987,
   1925078388, 2162078206, 2614888103, 3248222580, 3835390401, 4022224774,
   264347078, 604807628, 770255983, 1249150122, 1555081692, 1996064986,
   2554220882, 2821834349, 2952996808, 3210313671, 3336571891, 3584528711,
   113926993, 338241895, 666307205, 773529912, 1294757372, 1396182291,
   1695183700, 1986661051, 2177026350, 2456956037, 2730485921, 2820302411,
   3259730800, 3345764771, 3516065817, 3600352804, 4094571909, 275423344,
   430227734, 506948616, 659060556, 883997877, 958139571, 1322822218,
   1537002063, 1747873779, 1955562222, 2024104815, 2227730452, 2361852424,
   2428436474, 2756734187, 3204031479, 3329325298]

/-- The eight working words. -/
structure HashState where
  a : Nat
  b : Nat
  c : Nat
  d : Nat
  e : Nat
  f : Nat
  g : Nat
  h : Nat
deriving DecidableEq, Repr

/-- Initial hash value (FIPS 180-4, section 5.3.3), in decimal: the first word is `0x6a09e667`. -/
def H0 : HashState :=
  ⟨1779033703, 3144134277, 1013904242, 2773480762,
   1359893119, 2600822924, 528734635, 1541459225⟩

/-- Addition modulo `2 ^ 32`. -/
def add32 (x y : Nat) : Nat := (x + y) % 4294967296

/-- Rotation of a 32-bit word to the right by `n` bits. -/
def rotr (n x : Nat) : Nat := ((x >>> n) ||| (x <<< (32 - n))) % 4294967296

/-- `Ch(x, y, z) = (x ∧ y) ⊕ (¬x ∧ z)` on 32-bit words. -/
def Ch (x y z : Nat) : Nat := (x &&& y) ^^^ ((4294967295 - x) &&& z)

/-- `Maj(x, y, z) = (x ∧ y) ⊕ (x ∧ z) ⊕ (y ∧ z)`. -/
def Maj (x y z : Nat) : Nat := (x &&& y) ^^^ (x &&& z) ^^^ (y &&& z)

/-- `Σ0(x) = ROTR 2 ⊕ ROTR 13 ⊕ ROTR 22`. -/
def bigSigma0 (x : Nat) : Nat := rotr 2 x ^^^ rotr 13 x ^^^ rotr 22 x

/-- `Σ1(x) = ROTR 6 ⊕ ROTR 11 ⊕ ROTR 25`. -/
def bigSigma1 (x : Nat) : Nat := rotr 6 x ^^^ rotr 11 x ^^^ rotr 25 x

/-- `σ0(x) = ROTR 7 ⊕ ROTR 18 ⊕ SHR 3`. -/
def smallSigma0 (x : Nat) : Nat := rotr 7 x ^^^ rotr 18 x ^^^ (x >>> 3)

/-- `σ1(x) = ROTR 17 ⊕ ROTR 19 ⊕ SHR 10`. -/
def smallSigma1 (x : Nat) : Nat := rotr 17 x ^^^ rotr 19 x ^^^ (x >>> 10)

/-- The message schedule grown by `n` words; `w` holds the words so far, newest first:
`W[t] = σ1(W[t-2]) + W[t-7] + σ0(W[t-15]) + W[t-16]`. -/
def extend : Nat → List Nat → List Nat
  | 0, w => w
  | n + 1, w =>
    extend n (add32 (add32 (smallSigma1 (w.getD 1 0)) (w.getD 6 0))
      (add32 (smallSigma0 (w.getD 14 0)) (w.getD 15 0)) :: w)

/-- The 64 words of the message schedule of a block of 16 words. -/
def schedule (block : List Nat) : List Nat := (extend 48 block.reverse).reverse

/-- One round, for the pair of a round constant and a schedule word. -/
def round (s : HashState) (kw : Nat × Nat) : HashState :=
  let t1 := add32 (add32 (add32 s.h (bigSigma1 s.e)) (add32 (Ch s.e s.f s.g) kw.1)) kw.2
  let t2 := add32 (bigSigma0 s.a) (Maj s.a s.b s.c)
  ⟨add32 t1 t2, s.a, s.b, s.c, add32 s.d t1, s.e, s.f, s.g⟩

/-- The first `n` big-endian 32-bit words of a byte string. -/
def toWords : Nat → List Byte → List Nat
  | 0, _ => []
  | n + 1, bs =>
    ((bs.getD 0 0).val * 16777216 + (bs.getD 1 0).val * 65536 + (bs.getD 2 0).val * 256
      + (bs.getD 3 0).val) :: toWords n (bs.drop 4)

/-- The continuation `k` applied to `n`, by cases on `n`: the same value as `k n`, but the
number is computed before `k` is entered. -/
def force {α : Type} (n : Nat) (k : Nat → α) : α :=
  match n with
  | 0 => k 0
  | m + 1 => k (m + 1)

/-- The continuation `k` applied to a list of numbers, each computed first. -/
def forceList {α : Type} : List Nat → (List Nat → α) → α
  | [], k => k []
  | x :: xs, k => force x fun y => forceList xs fun ys => k (y :: ys)

/-- The compression function on one 64-byte block. -/
def compress (s : HashState) (block : List Byte) : HashState :=
  forceList (toWords 16 block) fun w16 =>
  let r := (K.zip (schedule w16)).foldl round s
  ⟨add32 s.a r.a, add32 s.b r.b, add32 s.c r.c, add32 s.d r.d,
   add32 s.e r.e, add32 s.f r.f, add32 s.g r.g, add32 s.h r.h⟩

/-- The compression function over the first `n` blocks of a byte string. -/
def hashBlocks : Nat → HashState → List Byte → HashState
  | 0, s, _ => s
  | n + 1, s, bs => hashBlocks n (compress s (bs.take 64)) (bs.drop 64)

/-- The four bytes of a word, most significant first. -/
def wordBytes (w : Nat) : List Byte :=
  [Fin.ofNat (w / 16777216), Fin.ofNat (w / 65536), Fin.ofNat (w / 256), Fin.ofNat w]

/-- The message length in bits as eight bytes, most significant first. -/
def lengthBytes (bits : Nat) : List Byte :=
  wordBytes (bits / 4294967296 % 4294967296) ++ wordBytes (bits % 4294967296)

/-- Padding (FIPS 180-4, section 5.1.1): a `1` bit, zero bits up to 56 modulo 64 bytes, the
length. -/
def pad (msg : List Byte) : List Byte :=
  msg ++ [128] ++ List.replicate ((119 - msg.length % 64) % 64) 0 ++ lengthBytes (8 * msg.length)

/-- The 32 bytes of a hash value. -/
def digest (s : HashState) : List Byte :=
  wordBytes s.a ++ wordBytes s.b ++ wordBytes s.c ++ wordBytes s.d ++
  wordBytes s.e ++ wordBytes s.f ++ wordBytes s.g ++ wordBytes s.h

/-- SHA-256 of a byte string. -/
def hash (msg : List Byte) : List Byte :=
  digest (hashBlocks ((pad msg).length / 64) H0 (pad msg))

end SHA256

/-- HMAC (RFC 2104) with SHA-256, block size 64: `H((K ⊕ opad) ‖ H((K ⊕ ipad) ‖ data))`, where a
key longer than a block is hashed first and the key is padded with zeros to a block. -/
def hmacSha256 (key data : List Byte) : List Byte :=
  let k0 := if key.length > 64 then SHA256.hash key else key
  let k := k0 ++ List.replicate (64 - k0.length) 0
  let ipad := k.map (fun b => (Fin.ofNat (b.val ^^^ 54) : Byte))
  let opad := k.map (fun b => (Fin.ofNat (b.val ^^^ 92) : Byte))
  SHA256.hash (opad ++ SHA256.hash (ipad ++ data))

/-! ## Concrete inputs -/

/-- The default `secret_key` of client and server: `"my-secret-key"`. -/
def default_key : List Byte := [109, 121, 45, 115, 101, 99, 114, 101, 116, 45, 107, 101, 121]

/-- The message of the client: `std::string message(message_size, 'A')`. -/
def client_message (message_size : Nat) : List Byte := List.replicate message_size 65

/-- The frame that the client builds with its default key for the message `"AAAA"`, found on
the connection by one `recv`; the `send` of the two-byte acknowledgement returns `2`. -/
def frame_arrives : Env :=
  ⟨.queued (client_payload hmacSha256 default_key (client_message 4)), 2⟩

/-- The same frame found by `recv`, in an iteration whose `send` fails (returns `-1`). -/
def frame_arrives_send_fails : Env :=
  ⟨.queued (client_payload hmacSha256 default_key (client_message 4)), -1⟩

/-- The string `"a:b"` found by `recv`: a frame whose tag text is not the expected one. -/
def forged_frame_arrives : Env := ⟨.queued [97, 58, 98], 4⟩

/-- The client's frame for the message `"AAAA"` under the default key, with the first character
of its tag text, `'9'`, replaced by `':'`. -/
def tampered_frame : List Byte :=
  (client_payload hmacSha256 default_key (client_message 4)).set 0 58

/-! ## The hexadecimal rendering -/

/-- Specification side: the sixteen characters `0123456789abcdef`. -/
def hexAlphabet : List Byte :=
  [48, 49, 50, 51, 52, 53, 54, 55, 56, 57, 97, 98, 99, 100, 101, 102]

/-- Specification side: the two characters that stand for a byte, high nibble first. -/
def hexPair (b : Byte) : List Byte :=
  [hexAlphabet.getD (b.val / 16) 0, hexAlphabet.getD (b.val % 16) 0]

set_option maxRecDepth 100000 in
theorem sprintf_02x_eq_hexPair : ∀ b : Byte, sprintf_02x b = hexPair b := by
  decide

theorem getD_mem_alphabet : ∀ i : Fin 16, hexAlphabet.getD i.val 0 ∈ hexAlphabet := by
  decide

theorem hexPair_subset_alphabet (b : Byte) : ∀ c ∈ hexPair b, c ∈ hexAlphabet := by
  intro c hc
  simp only [hexPair, List.mem_cons, List.mem_singleton, List.not_mem_nil, or_false] at hc
  rcases hc with rfl | rfl
  · exact getD_mem_alphabet ⟨b.val / 16, by omega⟩
  · exact getD_mem_alphabet ⟨b.val % 16, by omega⟩

theorem foldl_sprintf (binary acc : List Byte) :
    binary.foldl (fun hex byte => hex ++ sprintf_02x byte) acc
      = acc ++ binary.flatMap hexPair := by
  induction binary generalizing acc with
  | nil => simp
  | cons b rest ih =>
    rw [List.foldl_cons, ih, sprintf_02x_eq_hexPair, List.flatMap_cons, List.append_assoc]

theorem bin_to_hex_eq_flatMap (binary : List Byte) :
    bin_to_hex binary = binary.flatMap hexPair := by
  simp [bin_to_hex, foldl_sprintf]

theorem bin_to_hex_cons (b : Byte) (rest : List Byte) :
    bin_to_hex (b :: rest) = hexPair b ++ bin_to_hex rest := by
  simp [bin_to_hex_eq_flatMap]

theorem bin_to_hex_length (binary : List Byte) :
    (bin_to_hex binary).length = 2 * binary.length := by
  induction binary with
  | nil => rfl
  | cons b rest ih =>
    rw [bin_to_hex_cons, List.length_append, ih]
    simp [hexPair]
    omega

theorem mem_alphabet_of_mem_bin_to_hex (binary : List Byte) :
    ∀ c ∈ bin_to_hex binary, c ∈ hexAlphabet := by
  intro c hc
  rw [bin_to_hex_eq_flatMap, List.mem_flatMap] at hc
  obtain ⟨b, _, hb⟩ := hc
  exact hexPair_subset_alphabet b c hb

theorem colon_not_mem_alphabet : colon ∉ hexAlphabet := by decide

theorem colon_not_mem_bin_to_hex (binary : List Byte) : colon ∉ bin_to_hex binary :=
  fun h => colon_not_mem_alphabet (mem_alphabet_of_mem_bin_to_hex binary colon h)

theorem calculate_hmac_eq (HMAC : List Byte → List Byte → List Byte) (message key : List Byte) :
    calculate_hmac HMAC message key = HMAC key message := by
  simp [calculate_hmac]

/-! ## `find`, `substr` and `parse` -/

theorem find_eq_none_iff (s : List Byte) (ch : Byte) : find s ch = none ↔ ch ∉ s := by
  induction s with
  | nil => simp [find]
  | cons c rest ih =>
    by_cases h : c = ch
    · simp [find, h]
    · simp [find, h, ih, Ne.symm h]

theorem find_append_of_not_mem (a b : List Byte) (ch : Byte) (h : ch ∉ a) :
    find (a ++ ch :: b) ch = some a.length := by
  induction a with
  | nil => simp [find]
  | cons c rest ih =>
    have hc : c ≠ ch := fun e => h (by simp [e])
    have hr : ch ∉ rest := fun e => h (by simp [e])
    simp [find, hc, ih hr]

theorem find_eq_some (s : List Byte) (ch : Byte) (pos : Nat) (h : find s ch = some pos) :
    pos < s.length ∧ ch ∉ s.take pos ∧ s = s.take pos ++ ch :: s.drop (pos + 1) := by
  induction s generalizing pos with
  | nil => simp [find] at h
  | cons c rest ih =>
    by_cases hc : c = ch
    · simp [find, hc] at h
      subst h
      simp [hc]
    · simp only [find, hc, if_false, Option.map_eq_some'] at h
      obtain ⟨q, hq, rfl⟩ := h
      obtain ⟨h1, h2, h3⟩ := ih q hq
      refine ⟨by simp; omega, ?_, ?_⟩
      · simp [List.take_succ_cons, h2, Ne.symm hc]
      · simp only [List.take_succ_cons, List.drop_succ_cons, List.cons_append]
        rw [← h3]

theorem parse_append_colon (a b : List Byte) (h : colon ∉ a) :
    parse (a ++ colon :: b) = .ok a b := by
  simp [parse, find_append_of_not_mem a b colon h, substr]

theorem parse_eq_invalid_format_iff (payload : List Byte) :
    parse payload = .invalid_format ↔ colon ∉ payload := by
  constructor
  · intro h
    rw [← find_eq_none_iff]
    cases hf : find payload colon with
    | none => rfl
    | some pos =>
      obtain ⟨_, h2, h3⟩ := find_eq_some payload colon pos hf
      rw [h3, parse_append_colon _ _ h2] at h
      cases h
  · intro h
    simp [parse, (find_eq_none_iff payload colon).2 h]

theorem parse_of_mem (payload : List Byte) (h : colon ∈ payload) :
    ∃ received_hmac_hex message, parse payload = .ok received_hmac_hex message ∧
      colon ∉ received_hmac_hex ∧ payload = received_hmac_hex ++ colon :: message := by
  cases hf : find payload colon with
  | none => exact absurd h ((find_eq_none_iff payload colon).1 hf)
  | some pos =>
    obtain ⟨_, h2, h3⟩ := find_eq_some payload colon pos hf
    refine ⟨payload.take pos, payload.drop (pos + 1), ?_, h2, h3⟩
    conv_lhs => rw [h3]
    exact parse_append_colon _ _ h2

/-! ## The frame codec -/

/-- C1: for every tag and every payload (the empty one and ones containing `':'` included),
parsing the frame `bin_to_hex(tag) + ":" + payload` at its first `':'` gives back exactly
`bin_to_hex(tag)` and `payload`; with the empty payload the frame is `bin_to_hex(tag)` followed
by `':'`. -/
theorem parse_build_payload (tag payload : List Byte) :
    parse (build_payload tag payload) = .ok (bin_to_hex tag) payload ∧
    build_payload tag [] = bin_to_hex tag ++ [colon] := by
  constructor
  · simpa [build_payload] using parse_append_colon (bin_to_hex tag) payload
      (colon_not_mem_bin_to_hex tag)
  · simp [build_payload]

/-- C6: the frame built for a tag and a payload has length `2 * |tag| + 1 + |payload|`; its first
`2 * |tag|` characters are the bytes of the tag in order, two characters of `0123456789abcdef`
per byte, high nibble first; the next character is `':'`; the rest is the payload unchanged.
Hence a 32-byte tag gives 64 lowercase hexadecimal characters. -/
theorem build_payload_layout (tag payload : List Byte) :
    (build_payload tag payload).length = 2 * tag.length + 1 + payload.length ∧
    (build_payload tag payload).take (2 * tag.length) = tag.flatMap hexPair ∧
    (∀ b : Byte, (hexPair b).length = 2 ∧
      hexPair b = [hexAlphabet.getD (b.val / 16) 0, hexAlphabet.getD (b.val % 16) 0]) ∧
    (∀ c ∈ (build_payload tag payload).take (2 * tag.length), c ∈ hexAlphabet) ∧
    (build_payload tag payload)[2 * tag.length]? = some colon ∧
    (build_payload tag payload).drop (2 * tag.length + 1) = payload ∧
    (tag.length = 32 → (bin_to_hex tag).length = 64 ∧
      (build_payload tag payload).take 64 = bin_to_hex tag ∧
      ∀ c ∈ bin_to_hex tag, c ∈ hexAlphabet) := by
  have hlen := bin_to_hex_length tag
  have htake : (build_payload tag payload).take (2 * tag.length) = bin_to_hex tag := by
    rw [← hlen]
    simp [build_payload]
  refine ⟨?_, ?_, ?_, ?_, ?_, ?_, ?_⟩
  · simp [build_payload, hlen]
    omega
  · rw [htake, bin_to_hex_eq_flatMap]
  · intro b
    exact ⟨rfl, rfl⟩
  · rw [htake]
    exact mem_alphabet_of_mem_bin_to_hex tag
  · rw [← hlen]
    simp only [build_payload, List.append_assoc]
    rw [List.getElem?_append_right (Nat.le_refl _)]
    simp
  · have : 2 * tag.length + 1 = (bin_to_hex tag ++ [colon]).length := by simp [hlen]
    rw [this]
    simp [build_payload]
  · intro h32
    refine ⟨by omega, ?_, mem_alphabet_of_mem_bin_to_hex tag⟩
    rw [← htake, h32]

/-- C9: a received string with at least one `':'` is split at the first `':'` only: the tag part
has no `':'`, later `':'` bytes stay in the message part, and tag part, `':'` and message part
together are the received string. -/
theorem parse_splits_at_first_colon (payload : List Byte) (h : colon ∈ payload) :
    ∃ received_hmac_hex message,
      parse payload = .ok received_hmac_hex message ∧
      colon ∉ received_hmac_hex ∧
      received_hmac_hex ++ [colon] ++ message = payload ∧
      find payload colon = some received_hmac_hex.length ∧
      message = payload.drop (received_hmac_hex.length + 1) := by
  obtain ⟨hex, msg, hp, hn, he⟩ := parse_of_mem payload h
  refine ⟨hex, msg, hp, hn, by simp [he], ?_, ?_⟩
  · rw [he]
    exact find_append_of_not_mem hex msg colon hn
  · have : hex.length + 1 = (hex ++ [colon]).length := by simp
    rw [he, this]
    simp

/-- Witness for C9: `"ab:c:d"` splits into `"ab"` and `"c:d"`. -/
theorem parse_splits_at_first_colon_witness :
    ∃ received_hmac_hex message,
      parse [97, 98, 58, 99, 58, 100] = .ok received_hmac_hex message ∧
      colon ∉ received_hmac_hex ∧
      received_hmac_hex ++ [colon] ++ message = [97, 98, 58, 99, 58, 100] ∧
      find [97, 98, 58, 99, 58, 100] colon = some received_hmac_hex.length ∧
      message = List.drop (received_hmac_hex.length + 1) [97, 98, 58, 99, 58, 100] :=
  parse_splits_at_first_colon [97, 98, 58, 99, 58, 100] (by decide)

/-! ## One iteration of the server loop -/

theorem wrapInt32_of_range (x : Int) (h1 : -2147483648 ≤ x) (h2 : x ≤ 2147483647) :
    wrapInt32 x = x := by
  unfold wrapInt32
  omega

theorem wrapInt32_add_wrapInt32 (x y : Int) : wrapInt32 (wrapInt32 x + y) = wrapInt32 (x + y) := by
  unfold wrapInt32
  omega

theorem recv_buffer_length (incoming : Incoming) (buffer : List Byte) :
    (recv incoming buffer).2.length = buffer.length := by
  cases incoming with
  | queued data =>
    simp only [recv, List.length_append, List.length_take, List.length_drop]
    omega
  | shutdown => rfl
  | failure => rfl

theorem initial_buffer_length : initial.buffer.length = 8192 := by
  unfold initial
  exact List.length_replicate 8192 0

theorem short_fits_initial (data : List Byte) (h : data.length ≤ 8192) :
    data.length ≤ initial.buffer.length := by
  rw [initial_buffer_length]
  exact h

theorem recv_queued_fits (data buffer : List Byte) (h : data.length ≤ buffer.length) :
    (recv (.queued data) buffer).1 = (data.length : Int) := by
  simp [recv, List.take_of_length_le h]

theorem received_queued (st : ServerState) (data : List Byte) (send_result : Int) :
    received st ⟨.queued data, send_result⟩ = data.take st.buffer.length := by
  unfold received recv
  simp only [Int.toNat_ofNat]
  exact List.take_left _ _

theorem received_queued_fits (st : ServerState) (data : List Byte) (send_result : Int)
    (h : data.length ≤ st.buffer.length) : received st ⟨.queued data, send_result⟩ = data := by
  rw [received_queued, List.take_of_length_le h]

theorem bytes_received_pos_of_received (st : ServerState) (env : Env) (c : Byte)
    (h : c ∈ received st env) : ¬ (recv env.incoming st.buffer).1 ≤ 0 := by
  intro hle
  have h0 : (recv env.incoming st.buffer).1.toNat = 0 := Int.toNat_eq_zero.2 hle
  simp [received, h0] at h

theorem iteration_of_nonpos (HMAC : List Byte → List Byte → List Byte) (secret_key : List Byte)
    (st : ServerState) (env : Env) (h : (recv env.incoming st.buffer).1 ≤ 0) :
    iteration HMAC secret_key st env
      = (.broke, { st with buffer := (recv env.incoming st.buffer).2 }) := by
  simp [iteration, h]

theorem iteration_of_pos (HMAC : List Byte → List Byte → List Byte) (secret_key : List Byte)
    (st : ServerState) (env : Env) (h : ¬ (recv env.incoming st.buffer).1 ≤ 0) :
    iteration HMAC secret_key st env
      = process HMAC secret_key { st with buffer := (recv env.incoming st.buffer).2 }
          (received st env) env.send_result := by
  simp [iteration, h, received]

theorem verify_eq_true_iff (HMAC : List Byte → List Byte → List Byte) (secret_key
    received_hmac_hex message : List Byte) :
    verify HMAC secret_key received_hmac_hex message = true ↔
      received_hmac_hex = bin_to_hex (calculate_hmac HMAC message secret_key) := by
  simp [verify]

theorem process_of_parse_ok (HMAC : List Byte → List Byte → List Byte) (secret_key : List Byte)
    (st : ServerState) (payload : List Byte) (send_result : Int)
    (received_hmac_hex message : List Byte) (h : parse payload = .ok received_hmac_hex message) :
    process HMAC secret_key st payload send_result =
      (.next,
        { message_count := wrapInt32 (st.message_count + 1),
          valid_hmacs :=
            if verify HMAC secret_key received_hmac_hex message then
              wrapInt32 (st.valid_hmacs + 1) else st.valid_hmacs,
          invalid_hmacs :=
            if verify HMAC secret_key received_hmac_hex message then
              st.invalid_hmacs else wrapInt32 (st.invalid_hmacs + 1),
          buffer := st.buffer,
          sent := st.sent ++
            [(if verify HMAC secret_key received_hmac_hex message then ack_ok else ack_fail,
              send_result)] }) := by
  unfold process
  rw [h]
  cases hv : verify HMAC secret_key received_hmac_hex message <;> simp [hv]

theorem process_of_not_mem (HMAC : List Byte → List Byte → List Byte) (secret_key : List Byte)
    (st : ServerState) (payload : List Byte) (send_result : Int) (h : colon ∉ payload) :
    process HMAC secret_key st payload send_result = (.broke, st) := by
  unfold process
  rw [(parse_eq_invalid_format_iff payload).2 h]

theorem parse_ne_out_of_range (payload : List Byte) : parse payload ≠ .out_of_range := by
  by_cases h : colon ∈ payload
  · obtain ⟨hex, msg, hp, _, _⟩ := parse_of_mem payload h
    rw [hp]
    simp
  · rw [(parse_eq_invalid_format_iff payload).2 h]
    simp

/-- The iteration that receives a string with a delimiter, in terms of the two parts. -/
theorem iteration_of_parse_ok (HMAC : List Byte → List Byte → List Byte) (secret_key : List Byte)
    (st : ServerState) (env : Env) (received_hmac_hex message : List Byte)
    (h : parse (received st env) = .ok received_hmac_hex message) :
    iteration HMAC secret_key st env =
      (.next,
        { message_count := wrapInt32 (st.message_count + 1),
          valid_hmacs :=
            if verify HMAC secret_key received_hmac_hex message then
              wrapInt32 (st.valid_hmacs + 1) else st.valid_hmacs,
          invalid_hmacs :=
            if verify HMAC secret_key received_hmac_hex message then
              st.invalid_hmacs else wrapInt32 (st.invalid_hmacs + 1),
          buffer := (recv env.incoming st.buffer).2,
          sent := st.sent ++
            [(if verify HMAC secret_key received_hmac_hex message then ack_ok else ack_fail,
              env.send_result)] }) := by
  have hmem : colon ∈ received st env := by
    by_contra hn
    rw [(parse_eq_invalid_format_iff _).2 hn] at h
    cases h
  rw [iteration_of_pos HMAC secret_key st env (bytes_received_pos_of_received st env colon hmem),
    process_of_parse_ok HMAC secret_key _ _ _ received_hmac_hex message h]

/-! ## HMAC-SHA-256 on concrete inputs -/

theorem client_message_length (n : Nat) : (client_message n).length = n :=
  List.length_replicate n 65

theorem take_client_message (n m : Nat) (h : n ≤ m) :
    (client_message m).take n = client_message n := by
  unfold client_message
  rw [List.take_replicate, Nat.min_eq_left h]

theorem wordBytes_length (w : Nat) : (SHA256.wordBytes w).length = 4 := rfl

theorem hash_length (msg : List Byte) : (SHA256.hash msg).length = 32 := by
  simp [SHA256.hash, SHA256.digest, wordBytes_length]

theorem hmacSha256_length (key data : List Byte) : (hmacSha256 key data).length = 32 := by
  simp [hmacSha256, hash_length]

set_option maxRecDepth 100000 in
/-- HMAC-SHA-256 of `"AAAA"` under `"my-secret-key"`:
`96c463087c0228cf551d29e4b35e2e6f8394986c2a07438557290f11517b5807`. -/
theorem hmacSha256_AAAA :
    hmacSha256 default_key (client_message 4) =
      [150, 196, 99, 8, 124, 2, 40, 207, 85, 29, 41, 228, 179, 94, 46, 111,
       131, 148, 152, 108, 42, 7, 67, 133, 87, 41, 15, 17, 81, 123, 88, 7] := by
  decide!

set_option maxRecDepth 100000 in
/-- HMAC-SHA-256 of 8127 bytes `'A'` under `"my-secret-key"`:
`ab8dd5585ef98a261f52b0b5def2a7ae59a65b0ed8bc43e0e9a20ee3de34e2e0`. -/
theorem hmacSha256_A8127 :
    hmacSha256 default_key (client_message 8127) =
      [171, 141, 213, 88, 94, 249, 138, 38, 31, 82, 176, 181, 222, 242, 167, 174,
       89, 166, 91, 14, 216, 188, 67, 224, 233, 162, 14, 227, 222, 52, 226, 224] := by
  decide!

set_option maxRecDepth 100000 in
/-- HMAC-SHA-256 of 8128 bytes `'A'` under `"my-secret-key"`:
`f1ec17a8937830d11c6ef6b2df30e6aafa07faf05199f86f32847f630cc548c2`. -/
theorem hmacSha256_A8128 :
    hmacSha256 default_key (client_message 8128) =
      [241, 236, 23, 168, 147, 120, 48, 209, 28, 110, 246, 178, 223, 48, 230, 170,
       250, 7, 250, 240, 81, 153, 248, 111, 50, 132, 127, 99, 12, 197, 72, 194] := by
  decide!

/-! ## The frame of the client at the server -/

theorem client_payload_eq (HMAC : List Byte → List Byte → List Byte) (secret_key
    message : List Byte) :
    client_payload HMAC secret_key message
      = bin_to_hex (HMAC secret_key message) ++ colon :: message := by
  simp [client_payload, build_payload, calculate_hmac_eq]

theorem client_payload_length (HMAC : List Byte → List Byte → List Byte) (secret_key
    message : List Byte) :
    (client_payload HMAC secret_key message).length
      = 2 * (HMAC secret_key message).length + 1 + message.length := by
  rw [client_payload_eq, List.length_append, bin_to_hex_length, List.length_cons]
  omega

theorem verify_bin_to_hex (HMAC : List Byte → List Byte → List Byte) (secret_key
    message : List Byte) :
    verify HMAC secret_key (bin_to_hex (HMAC secret_key message)) message = true := by
  rw [verify_eq_true_iff, calculate_hmac_eq]

/-- The iteration that receives the whole frame of the client. -/
theorem iteration_client_payload (HMAC : List Byte → List Byte → List Byte) (secret_key
    message : List Byte) (st : ServerState) (send_result : Int)
    (hfit : (client_payload HMAC secret_key message).length ≤ st.buffer.length) :
    iteration HMAC secret_key st ⟨.queued (client_payload HMAC secret_key message), send_result⟩
      = (.next,
          { message_count := wrapInt32 (st.message_count + 1),
            valid_hmacs := wrapInt32 (st.valid_hmacs + 1),
            invalid_hmacs := st.invalid_hmacs,
            buffer := (recv (.queued (client_payload HMAC secret_key message)) st.buffer).2,
            sent := st.sent ++ [(ack_ok, send_result)] }) := by
  have hp : parse (received st ⟨.queued (client_payload HMAC secret_key message), send_result⟩)
      = .ok (bin_to_hex (HMAC secret_key message)) message := by
    rw [received_queued_fits _ _ _ hfit, client_payload_eq]
    exact parse_append_colon _ _ (colon_not_mem_bin_to_hex _)
  rw [iteration_of_parse_ok HMAC secret_key st _ _ _ hp]
  simp [verify_bin_to_hex]

/-- What the server reads of a frame of the client that is longer than its buffer: the tag text,
the delimiter and the start of the message. -/
theorem received_client_payload_truncated (HMAC : List Byte → List Byte → List Byte) (secret_key
    message : List Byte) (st : ServerState) (send_result : Int)
    (h : 2 * (HMAC secret_key message).length < st.buffer.length) :
    received st ⟨.queued (client_payload HMAC secret_key message), send_result⟩
      = bin_to_hex (HMAC secret_key message) ++ colon ::
          message.take (st.buffer.length - 2 * (HMAC secret_key message).length - 1) := by
  have hl := bin_to_hex_length (HMAC secret_key message)
  rw [received_queued, client_payload_eq, List.take_append_eq_append_take,
    List.take_of_length_le (by omega), hl]
  obtain ⟨k, hk⟩ : ∃ k, st.buffer.length - 2 * (HMAC secret_key message).length = k + 1 :=
    ⟨st.buffer.length - 2 * (HMAC secret_key message).length - 1, by omega⟩
  rw [hk, List.take_succ_cons]
  simp

/-- A frame of the client in which one character of the tag text has been replaced parses, and
its tag text is not the text the server computes. -/
theorem tampered_not_verified (HMAC : List Byte → List Byte → List Byte)
    (hlen : ∀ key data, (HMAC key data).length = 32) (secret_key payload : List Byte)
    (i : Nat) (c : Byte) (hi : i < 64)
    (hc : (client_payload HMAC secret_key payload)[i]? ≠ some c) :
    ∃ received_hmac_hex message,
      parse ((client_payload HMAC secret_key payload).set i c) = .ok received_hmac_hex message ∧
      verify HMAC secret_key received_hmac_hex message = false := by
  have hl : (bin_to_hex (HMAC secret_key payload)).length = 64 := by
    rw [bin_to_hex_length, hlen]
  have hi' : i < (bin_to_hex (HMAC secret_key payload)).length := by omega
  rw [client_payload_eq, List.getElem?_append_left hi'] at hc
  rw [client_payload_eq, List.set_append_left i c hi']
  have hfalse : ∀ hex msg, hex ≠ bin_to_hex (calculate_hmac HMAC msg secret_key) →
      verify HMAC secret_key hex msg = false := by
    intro hex msg hne
    cases hb : verify HMAC secret_key hex msg with
    | false => rfl
    | true => exact absurd ((verify_eq_true_iff HMAC secret_key hex msg).1 hb) hne
  by_cases hcc : c = colon
  · subst hcc
    have hnot : colon ∉ (bin_to_hex (HMAC secret_key payload)).take i :=
      fun hm => colon_not_mem_bin_to_hex _ (List.mem_of_mem_take hm)
    refine ⟨(bin_to_hex (HMAC secret_key payload)).take i,
      (bin_to_hex (HMAC secret_key payload)).drop (i + 1) ++ colon :: payload, ?_, ?_⟩
    · rw [List.set_eq_take_append_cons_drop, if_pos hi', List.append_assoc, List.cons_append]
      exact parse_append_colon _ _ hnot
    · apply hfalse
      intro he
      have := congrArg List.length he
      rw [List.length_take, hl, bin_to_hex_length, calculate_hmac_eq, hlen] at this
      omega
  · have hnot : colon ∉ (bin_to_hex (HMAC secret_key payload)).set i c := by
      intro hm
      rcases List.mem_or_eq_of_mem_set hm with h1 | h1
      · exact colon_not_mem_bin_to_hex _ h1
      · exact hcc h1.symm
    refine ⟨(bin_to_hex (HMAC secret_key payload)).set i c, payload,
      parse_append_colon _ _ hnot, ?_⟩
    apply hfalse
    intro he
    rw [calculate_hmac_eq] at he
    apply hc
    rw [← he]
    exact List.getElem?_set_self hi'

/-! ## The session and its counters -/

theorem session_cons_of_next (HMAC : List Byte → List Byte → List Byte) (secret_key : List Byte)
    (env : Env) (envs : List Env) (st st' : ServerState)
    (h : iteration HMAC secret_key st env = (.next, st')) :
    session HMAC secret_key (env :: envs) st = session HMAC secret_key envs st' := by
  simp [session, h]

theorem session_cons_of_not_next (HMAC : List Byte → List Byte → List Byte)
    (secret_key : List Byte) (env : Env) (envs : List Env) (st : ServerState)
    (h : (iteration HMAC secret_key st env).1 ≠ .next) :
    session HMAC secret_key (env :: envs) st = iteration HMAC secret_key st env := by
  rcases hr : iteration HMAC secret_key st env with ⟨flow, st'⟩
  rw [hr] at h
  cases flow with
  | next => exact absurd rfl h
  | broke => simp [session, hr]
  | thrown => simp [session, hr]

/-- What one iteration does to the counters: either the frame is fully processed, and then
`message_count` and exactly one of `valid_hmacs`, `invalid_hmacs` go through `++`, or the loop is
left and no counter changes. -/
theorem iteration_counters (HMAC : List Byte → List Byte → List Byte) (secret_key : List Byte)
    (st : ServerState) (env : Env) :
    ((iteration HMAC secret_key st env).1 = .next ∧
      (iteration HMAC secret_key st env).2.message_count = wrapInt32 (st.message_count + 1) ∧
      (((iteration HMAC secret_key st env).2.valid_hmacs = wrapInt32 (st.valid_hmacs + 1) ∧
          (iteration HMAC secret_key st env).2.invalid_hmacs = st.invalid_hmacs) ∨
        ((iteration HMAC secret_key st env).2.valid_hmacs = st.valid_hmacs ∧
          (iteration HMAC secret_key st env).2.invalid_hmacs
            = wrapInt32 (st.invalid_hmacs + 1)))) ∨
    ((iteration HMAC secret_key st env).1 = .broke ∧
      (iteration HMAC secret_key st env).2.message_count = st.message_count ∧
      (iteration HMAC secret_key st env).2.valid_hmacs = st.valid_hmacs ∧
      (iteration HMAC secret_key st env).2.invalid_hmacs = st.invalid_hmacs) := by
  by_cases hle : (recv env.incoming st.buffer).1 ≤ 0
  · right
    rw [iteration_of_nonpos HMAC secret_key st env hle]
    exact ⟨rfl, rfl, rfl, rfl⟩
  · by_cases hmem : colon ∈ received st env
    · left
      obtain ⟨hex, msg, hp, _, _⟩ := parse_of_mem (received st env) hmem
      rw [iteration_of_parse_ok HMAC secret_key st env hex msg hp]
      cases verify HMAC secret_key hex msg <;> simp
    · right
      rw [iteration_of_pos HMAC secret_key st env hle, process_of_not_mem _ _ _ _ _ hmem]
      exact ⟨rfl, rfl, rfl, rfl⟩

/-- The counters after a session of at most `2 ^ 31 - 1 - message_count` iterations. -/
theorem session_counters (HMAC : List Byte → List Byte → List Byte) (secret_key : List Byte)
    (envs : List Env) : ∀ st : ServerState,
    st.message_count = st.valid_hmacs + st.invalid_hmacs → 0 ≤ st.valid_hmacs →
    0 ≤ st.invalid_hmacs → st.message_count + envs.length ≤ 2147483647 →
    (session HMAC secret_key envs st).2.message_count
      = (session HMAC secret_key envs st).2.valid_hmacs
        + (session HMAC secret_key envs st).2.invalid_hmacs ∧
    st.valid_hmacs ≤ (session HMAC secret_key envs st).2.valid_hmacs ∧
    st.invalid_hmacs ≤ (session HMAC secret_key envs st).2.invalid_hmacs ∧
    (session HMAC secret_key envs st).2.message_count ≤ st.message_count + envs.length := by
  induction envs with
  | nil =>
    intro st h1 h2 h3 _
    simp [session, h1]
  | cons env envs ih =>
    intro st h1 h2 h3 h4
    simp only [List.length_cons, Nat.cast_add, Nat.cast_one] at h4
    rcases iteration_counters HMAC secret_key st env with ⟨hf, hm, hvi⟩ | ⟨hf, hm, hv, hi⟩
    · rcases hr : iteration HMAC secret_key st env with ⟨flow, st'⟩
      rw [hr] at hf hm hvi
      simp only at hf hm hvi
      subst hf
      rw [session_cons_of_next HMAC secret_key env envs st st' hr]
      rw [wrapInt32_of_range _ (by omega) (by omega)] at hm
      simp only [List.length_cons, Nat.cast_add, Nat.cast_one]
      rcases hvi with ⟨hv, hi⟩ | ⟨hv, hi⟩
      · rw [wrapInt32_of_range _ (by omega) (by omega)] at hv
        obtain ⟨a, b, c, d⟩ := ih st' (by omega) (by omega) (by omega) (by omega)
        exact ⟨a, by omega, by omega, by omega⟩
      · rw [wrapInt32_of_range _ (by omega) (by omega)] at hi
        obtain ⟨a, b, c, d⟩ := ih st' (by omega) (by omega) (by omega) (by omega)
        exact ⟨a, by omega, by omega, by omega⟩
    · rw [session_cons_of_not_next HMAC secret_key env envs st (by rw [hf]; simp)]
      simp only [List.length_cons, Nat.cast_add, Nat.cast_one]
      exact ⟨by omega, by omega, by omega, by omega⟩

/-- A session in which the same frame of the client arrives `n + 1` times. -/
theorem session_replicate_client_payload (HMAC : List Byte → List Byte → List Byte) (secret_key
    message : List Byte) (send_result : Int) (n : Nat) : ∀ st : ServerState,
    (client_payload HMAC secret_key message).length ≤ st.buffer.length →
    (session HMAC secret_key (List.replicate (n + 1)
      ⟨.queued (client_payload HMAC secret_key message), send_result⟩) st).1 = .next ∧
    (session HMAC secret_key (List.replicate (n + 1)
      ⟨.queued (client_payload HMAC secret_key message), send_result⟩) st).2.message_count
        = wrapInt32 (st.message_count + (n + 1 : Nat)) ∧
    (session HMAC secret_key (List.replicate (n + 1)
      ⟨.queued (client_payload HMAC secret_key message), send_result⟩) st).2.valid_hmacs
        = wrapInt32 (st.valid_hmacs + (n + 1 : Nat)) ∧
    (session HMAC secret_key (List.replicate (n + 1)
      ⟨.queued (client_payload HMAC secret_key message), send_result⟩) st).2.invalid_hmacs
        = st.invalid_hmacs := by
  induction n with
  | zero =>
    intro st hfit
    rw [List.replicate_succ, session_cons_of_next _ _ _ _ _ _
      (iteration_client_payload HMAC secret_key message st send_result hfit)]
    simp [session]
  | succ n ih =>
    intro st hfit
    rw [List.replicate_succ, session_cons_of_next _ _ _ _ _ _
      (iteration_client_payload HMAC secret_key message st send_result hfit)]
    obtain ⟨a, b, c, d⟩ := ih
      { message_count := wrapInt32 (st.message_count + 1),
        valid_hmacs := wrapInt32 (st.valid_hmacs + 1),
        invalid_hmacs := st.invalid_hmacs,
        buffer := (recv (.queued (client_payload HMAC secret_key message)) st.buffer).2,
        sent := st.sent ++ [(ack_ok, send_result)] }
      (by simpa [recv_buffer_length] using hfit)
    refine ⟨a, ?_, ?_, d⟩
    · rw [b, wrapInt32_add_wrapInt32]
      congr 1
      push_cast
      ring
    · rw [c, wrapInt32_add_wrapInt32]
      congr 1
      push_cast
      ring

theorem iteration_buffer_length (HMAC : List Byte → List Byte → List Byte)
    (secret_key : List Byte) (st : ServerState) (env : Env) :
    (iteration HMAC secret_key st env).2.buffer.length = st.buffer.length := by
  by_cases hle : (recv env.incoming st.buffer).1 ≤ 0
  · rw [iteration_of_nonpos HMAC secret_key st env hle]
    exact recv_buffer_length _ _
  · by_cases hmem : colon ∈ received st env
    · obtain ⟨hex, msg, hp, _, _⟩ := parse_of_mem (received st env) hmem
      rw [iteration_of_parse_ok HMAC secret_key st env hex msg hp]
      exact recv_buffer_length _ _
    · rw [iteration_of_pos HMAC secret_key st env hle, process_of_not_mem _ _ _ _ _ hmem]
      exact recv_buffer_length _ _

theorem session_buffer_length (HMAC : List Byte → List Byte → List Byte)
    (secret_key : List Byte) (envs : List Env) : ∀ st : ServerState,
    (session HMAC secret_key envs st).2.buffer.length = st.buffer.length := by
  induction envs with
  | nil => intro st; rfl
  | cons env envs ih =>
    intro st
    by_cases hn : (iteration HMAC secret_key st env).1 = .next
    · rcases hr : iteration HMAC secret_key st env with ⟨flow, st'⟩
      rw [hr] at hn
      simp only at hn
      subst hn
      rw [session_cons_of_next HMAC secret_key env envs st st' hr, ih st']
      have := iteration_buffer_length HMAC secret_key st env
      rw [hr] at this
      exact this
    · rw [session_cons_of_not_next HMAC secret_key env envs st hn]
      exact iteration_buffer_length HMAC secret_key st env

theorem frame_arrives_fits (st : ServerState) (h : st.buffer.length = 8192) :
    (client_payload hmacSha256 default_key (client_message 4)).length ≤ st.buffer.length := by
  rw [client_payload_length, hmacSha256_length, client_message_length, h]
  decide

theorem iteration_frame_arrives (st : ServerState) (h : st.buffer.length = 8192) :
    iteration hmacSha256 default_key st frame_arrives
      = (.next,
          { message_count := wrapInt32 (st.message_count + 1),
            valid_hmacs := wrapInt32 (st.valid_hmacs + 1),
            invalid_hmacs := st.invalid_hmacs,
            buffer := (recv frame_arrives.incoming st.buffer).2,
            sent := st.sent ++ [(ack_ok, 2)] }) :=
  iteration_client_payload hmacSha256 default_key (client_message 4) st 2
    (frame_arrives_fits st h)

theorem iteration_frame_arrives_send_fails (st : ServerState) (h : st.buffer.length = 8192) :
    iteration hmacSha256 default_key st frame_arrives_send_fails
      = (.next,
          { message_count := wrapInt32 (st.message_count + 1),
            valid_hmacs := wrapInt32 (st.valid_hmacs + 1),
            invalid_hmacs := st.invalid_hmacs,
            buffer := (recv frame_arrives.incoming st.buffer).2,
            sent := st.sent ++ [(ack_ok, -1)] }) :=
  iteration_client_payload hmacSha256 default_key (client_message 4) st (-1)
    (frame_arrives_fits st h)

theorem session_replicate_frame_arrives (n : Nat) (hn : 0 < n) (st : ServerState)
    (h : st.buffer.length = 8192) :
    (session hmacSha256 default_key (List.replicate n frame_arrives) st).1 = .next ∧
    (session hmacSha256 default_key (List.replicate n frame_arrives) st).2.message_count
      = wrapInt32 (st.message_count + (n : Nat)) ∧
    (session hmacSha256 default_key (List.replicate n frame_arrives) st).2.valid_hmacs
      = wrapInt32 (st.valid_hmacs + (n : Nat)) := by
  obtain ⟨k, rfl⟩ : ∃ k, n = k + 1 := ⟨n - 1, by omega⟩
  obtain ⟨a, b, c, _⟩ := session_replicate_client_payload hmacSha256 default_key
    (client_message 4) 2 k st (frame_arrives_fits st h)
  exact ⟨a, b, c⟩

theorem iteration_forged_frame_arrives (st : ServerState) (h : st.buffer.length = 8192) :
    iteration hmacSha256 default_key st forged_frame_arrives
      = (.next,
          { message_count := wrapInt32 (st.message_count + 1),
            valid_hmacs := st.valid_hmacs,
            invalid_hmacs := wrapInt32 (st.invalid_hmacs + 1),
            buffer := (recv forged_frame_arrives.incoming st.buffer).2,
            sent := st.sent ++ [(ack_fail, 4)] }) := by
  have hp : parse (received st forged_frame_arrives) = .ok [97] [98] := by
    unfold forged_frame_arrives
    rw [received_queued_fits _ _ _ (by rw [h]; decide)]
    decide
  have hv : verify hmacSha256 default_key [97] [98] = false := by
    cases hb : verify hmacSha256 default_key [97] [98] with
    | false => rfl
    | true =>
      have he := congrArg List.length ((verify_eq_true_iff hmacSha256 default_key _ _).1 hb)
      rw [bin_to_hex_length, calculate_hmac_eq, hmacSha256_length] at he
      exact absurd he (by decide)
  rw [iteration_of_parse_ok hmacSha256 default_key st _ _ _ hp, hv]
  rfl

/-- A session in which the forged frame `"a:b"` arrives `n` times. -/
theorem session_replicate_forged_frame (n : Nat) : ∀ st : ServerState,
    st.buffer.length = 8192 →
    (session hmacSha256 default_key (List.replicate (n + 1) forged_frame_arrives) st).1
      = .next ∧
    (session hmacSha256 default_key (List.replicate (n + 1) forged_frame_arrives)
      st).2.invalid_hmacs = wrapInt32 (st.invalid_hmacs + (n + 1 : Nat)) ∧
    (session hmacSha256 default_key (List.replicate (n + 1) forged_frame_arrives)
      st).2.valid_hmacs = st.valid_hmacs := by
  induction n with
  | zero =>
    intro st h
    rw [List.replicate_succ, session_cons_of_next _ _ _ _ _ _
      (iteration_forged_frame_arrives st h)]
    simp [session]
  | succ n ih =>
    intro st h
    rw [List.replicate_succ, session_cons_of_next _ _ _ _ _ _
      (iteration_forged_frame_arrives st h)]
    obtain ⟨a, b, c⟩ := ih
      { message_count := wrapInt32 (st.message_count + 1),
        valid_hmacs := st.valid_hmacs,
        invalid_hmacs := wrapInt32 (st.invalid_hmacs + 1),
        buffer := (recv forged_frame_arrives.incoming st.buffer).2,
        sent := st.sent ++ [(ack_fail, 4)] }
      (by rw [recv_buffer_length, h])
    refine ⟨a, ?_, c⟩
    rw [b, wrapInt32_add_wrapInt32]
    congr 1
    push_cast
    ring

theorem tampered_frame_parse :
    ∃ received_hmac_hex message,
      parse tampered_frame = .ok received_hmac_hex message ∧
      verify hmacSha256 default_key received_hmac_hex message = false :=
  tampered_not_verified hmacSha256 hmacSha256_length default_key (client_message 4) 0 58
    (by decide) (by rw [client_payload_eq, hmacSha256_AAAA]; decide)

theorem tampered_frame_length : tampered_frame.length = 69 := by
  unfold tampered_frame
  rw [List.length_set, client_payload_length, hmacSha256_length, client_message_length]

/-! ## Verification and acknowledgement -/

/-- C2: for every key and every received string that contains a delimiter, the frame is marked
valid exactly when the tag text before the first delimiter equals
`bin_to_hex(calculate_hmac(message, key))` (list equality: every character and the length); the
iteration then passes `"OK"` to `send` and counts the frame as valid, and otherwise passes
`"FAIL"` and counts it as invalid. -/
theorem verify_and_acknowledge (HMAC : List Byte → List Byte → List Byte)
    (secret_key : List Byte) (st : ServerState) (env : Env) (h : colon ∈ received st env) :
    ∃ received_hmac_hex message,
      parse (received st env) = .ok received_hmac_hex message ∧
      (verify HMAC secret_key received_hmac_hex message = true ↔
        received_hmac_hex = bin_to_hex (calculate_hmac HMAC message secret_key)) ∧
      (iteration HMAC secret_key st env).1 = .next ∧
      (received_hmac_hex = bin_to_hex (calculate_hmac HMAC message secret_key) →
        (iteration HMAC secret_key st env).2.sent = st.sent ++ [(ack_ok, env.send_result)] ∧
        (iteration HMAC secret_key st env).2.valid_hmacs = wrapInt32 (st.valid_hmacs + 1) ∧
        (iteration HMAC secret_key st env).2.invalid_hmacs = st.invalid_hmacs) ∧
      (received_hmac_hex ≠ bin_to_hex (calculate_hmac HMAC message secret_key) →
        (iteration HMAC secret_key st env).2.sent = st.sent ++ [(ack_fail, env.send_result)] ∧
        (iteration HMAC secret_key st env).2.valid_hmacs = st.valid_hmacs ∧
        (iteration HMAC secret_key st env).2.invalid_hmacs
          = wrapInt32 (st.invalid_hmacs + 1)) := by
  obtain ⟨hex, msg, hp, _, _⟩ := parse_of_mem (received st env) h
  refine ⟨hex, msg, hp, verify_eq_true_iff HMAC secret_key hex msg, ?_, ?_, ?_⟩
  · rw [iteration_of_parse_ok HMAC secret_key st env hex msg hp]
  · intro he
    have hv := (verify_eq_true_iff HMAC secret_key hex msg).2 he
    rw [iteration_of_parse_ok HMAC secret_key st env hex msg hp]
    simp [hv]
  · intro hne
    have hv : verify HMAC secret_key hex msg = false := by
      cases hb : verify HMAC secret_key hex msg with
      | false => rfl
      | true => exact absurd ((verify_eq_true_iff HMAC secret_key hex msg).1 hb) hne
    rw [iteration_of_parse_ok HMAC secret_key st env hex msg hp]
    simp [hv]

/-- Witness for C2: the server in its initial state, key `"my-secret-key"`, receives `"a:b"`. -/
theorem verify_and_acknowledge_witness :
    ∃ received_hmac_hex message,
      parse (received initial ⟨.queued [97, 58, 98], 4⟩) = .ok received_hmac_hex message ∧
      (verify hmacSha256 default_key received_hmac_hex message = true ↔
        received_hmac_hex = bin_to_hex (calculate_hmac hmacSha256 message default_key)) ∧
      (iteration hmacSha256 default_key initial ⟨.queued [97, 58, 98], 4⟩).1 = .next ∧
      (received_hmac_hex = bin_to_hex (calculate_hmac hmacSha256 message default_key) →
        (iteration hmacSha256 default_key initial ⟨.queued [97, 58, 98], 4⟩).2.sent
          = initial.sent ++ [(ack_ok, 4)] ∧
        (iteration hmacSha256 default_key initial ⟨.queued [97, 58, 98], 4⟩).2.valid_hmacs
          = wrapInt32 (initial.valid_hmacs + 1) ∧
        (iteration hmacSha256 default_key initial ⟨.queued [97, 58, 98], 4⟩).2.invalid_hmacs
          = initial.invalid_hmacs) ∧
      (received_hmac_hex ≠ bin_to_hex (calculate_hmac hmacSha256 message default_key) →
        (iteration hmacSha256 default_key initial ⟨.queued [97, 58, 98], 4⟩).2.sent
          = initial.sent ++ [(ack_fail, 4)] ∧
        (iteration hmacSha256 default_key initial ⟨.queued [97, 58, 98], 4⟩).2.valid_hmacs
          = initial.valid_hmacs ∧
        (iteration hmacSha256 default_key initial ⟨.queued [97, 58, 98], 4⟩).2.invalid_hmacs
          = wrapInt32 (initial.invalid_hmacs + 1)) :=
  verify_and_acknowledge hmacSha256 default_key initial ⟨.queued [97, 58, 98], 4⟩
    (by rw [received_queued_fits _ _ _ (short_fits_initial _ (by decide))]; decide)

/-! ## Leaving the loop -/

/-- C5: when the received string has no `':'`, parsing fails as a malformed frame and the session
ends in that iteration (whatever would follow on the connection), with no `send` call and with
`message_count`, `valid_hmacs` and `invalid_hmacs` unchanged; and parsing fails for no other
string. -/
theorem malformed_frame_ends_session (HMAC : List Byte → List Byte → List Byte)
    (secret_key : List Byte) (st : ServerState) (env : Env) (envs : List Env)
    (hpos : 0 < (recv env.incoming st.buffer).1) (h : colon ∉ received st env) :
    parse (received st env) = .invalid_format ∧
    (session HMAC secret_key (env :: envs) st).1 = .broke ∧
    (session HMAC secret_key (env :: envs) st).2.sent = st.sent ∧
    (session HMAC secret_key (env :: envs) st).2.message_count = st.message_count ∧
    (session HMAC secret_key (env :: envs) st).2.valid_hmacs = st.valid_hmacs ∧
    (session HMAC secret_key (env :: envs) st).2.invalid_hmacs = st.invalid_hmacs ∧
    (∀ payload, parse payload = .invalid_format ↔ colon ∉ payload) ∧
    (∀ payload, parse payload ≠ .out_of_range) := by
  have hit : iteration HMAC secret_key st env
      = (.broke, { st with buffer := (recv env.incoming st.buffer).2 }) := by
    rw [iteration_of_pos HMAC secret_key st env (by omega), process_of_not_mem _ _ _ _ _ h]
  refine ⟨(parse_eq_invalid_format_iff _).2 h, ?_, ?_, ?_, ?_, ?_,
    parse_eq_invalid_format_iff, parse_ne_out_of_range⟩ <;> simp [session, hit]

/-- Witness for C5: the server in its initial state receives `"abc"`; a second frame is waiting
behind it. -/
theorem malformed_frame_ends_session_witness :
    parse (received initial ⟨.queued [97, 98, 99], 4⟩) = .invalid_format ∧
    (session hmacSha256 default_key
      [⟨.queued [97, 98, 99], 4⟩, ⟨.queued [97, 58, 98], 4⟩] initial).1 = .broke ∧
    (session hmacSha256 default_key
      [⟨.queued [97, 98, 99], 4⟩, ⟨.queued [97, 58, 98], 4⟩] initial).2.sent = initial.sent ∧
    (session hmacSha256 default_key
      [⟨.queued [97, 98, 99], 4⟩, ⟨.queued [97, 58, 98], 4⟩] initial).2.message_count
        = initial.message_count ∧
    (session hmacSha256 default_key
      [⟨.queued [97, 98, 99], 4⟩, ⟨.queued [97, 58, 98], 4⟩] initial).2.valid_hmacs
        = initial.valid_hmacs ∧
    (session hmacSha256 default_key
      [⟨.queued [97, 98, 99], 4⟩, ⟨.queued [97, 58, 98], 4⟩] initial).2.invalid_hmacs
        = initial.invalid_hmacs ∧
    (∀ payload, parse payload = .invalid_format ↔ colon ∉ payload) ∧
    (∀ payload, parse payload ≠ .out_of_range) :=
  malformed_frame_ends_session hmacSha256 default_key initial ⟨.queued [97, 98, 99], 4⟩
    [⟨.queued [97, 58, 98], 4⟩]
    (by rw [recv_queued_fits _ _ (short_fits_initial _ (by decide))]; decide)
    (by rw [received_queued_fits _ _ _ (short_fits_initial _ (by decide))]; decide)

/-- C8: when `recv` returns zero (peer closed) or a negative value (error), the loop is left in
that iteration: nothing that would follow on the connection is read, `message_count`,
`valid_hmacs` and `invalid_hmacs` keep their values and there is no `send` call. A closed
connection gives `0` and a failing call `-1`. -/
theorem recv_nonpositive_ends_session (HMAC : List Byte → List Byte → List Byte)
    (secret_key : List Byte) (st : ServerState) (env : Env) (envs : List Env)
    (h : (recv env.incoming st.buffer).1 ≤ 0) :
    (session HMAC secret_key (env :: envs) st).1 = .broke ∧
    (session HMAC secret_key (env :: envs) st).2.message_count = st.message_count ∧
    (session HMAC secret_key (env :: envs) st).2.valid_hmacs = st.valid_hmacs ∧
    (session HMAC secret_key (env :: envs) st).2.invalid_hmacs = st.invalid_hmacs ∧
    (session HMAC secret_key (env :: envs) st).2.sent = st.sent ∧
    (recv .shutdown st.buffer).1 = 0 ∧ (recv .failure st.buffer).1 = -1 := by
  have hit := iteration_of_nonpos HMAC secret_key st env h
  refine ⟨?_, ?_, ?_, ?_, ?_, rfl, rfl⟩ <;> simp [session, hit]

/-- Witness for C8: the peer closes the connection after one valid frame has been counted. -/
theorem recv_nonpositive_ends_session_witness :
    (session hmacSha256 default_key [⟨.shutdown, 0⟩, ⟨.queued [97, 58, 98], 4⟩]
      { initial with message_count := 1, valid_hmacs := 1 }).1 = .broke ∧
    (session hmacSha256 default_key [⟨.shutdown, 0⟩, ⟨.queued [97, 58, 98], 4⟩]
      { initial with message_count := 1, valid_hmacs := 1 }).2.message_count = 1 ∧
    (session hmacSha256 default_key [⟨.shutdown, 0⟩, ⟨.queued [97, 58, 98], 4⟩]
      { initial with message_count := 1, valid_hmacs := 1 }).2.valid_hmacs = 1 ∧
    (session hmacSha256 default_key [⟨.shutdown, 0⟩, ⟨.queued [97, 58, 98], 4⟩]
      { initial with message_count := 1, valid_hmacs := 1 }).2.invalid_hmacs = 0 ∧
    (session hmacSha256 default_key [⟨.shutdown, 0⟩, ⟨.queued [97, 58, 98], 4⟩]
      { initial with message_count := 1, valid_hmacs := 1 }).2.sent = [] ∧
    (recv .shutdown initial.buffer).1 = 0 ∧ (recv .failure initial.buffer).1 = -1 :=
  recv_nonpositive_ends_session hmacSha256 default_key
    { initial with message_count := 1, valid_hmacs := 1 } ⟨.shutdown, 0⟩
    [⟨.queued [97, 58, 98], 4⟩] (by simp [recv])

/-! ## The client's frame at the server -/

/-- C3, for frames that fit the receive buffer: for every key and every payload whose frame
(`2 * |tag| + 1 + |payload|` bytes) is at most the 8192 bytes of the server's buffer, the server
holding the same key that finds this frame on the connection goes through the whole iteration,
passes `"OK"` to `send` and increments `valid_hmacs` (by one, unless the 32-bit counter is at its
maximum); `invalid_hmacs` is unchanged. -/
theorem client_frame_acknowledged (HMAC : List Byte → List Byte → List Byte) (secret_key
    message : List Byte) (st : ServerState) (send_result : Int)
    (hbuf : st.buffer.length = 8192)
    (hfit : (client_payload HMAC secret_key message).length ≤ 8192) :
    (iteration HMAC secret_key st
      ⟨.queued (client_payload HMAC secret_key message), send_result⟩).1 = .next ∧
    (iteration HMAC secret_key st
      ⟨.queued (client_payload HMAC secret_key message), send_result⟩).2.sent
        = st.sent ++ [(ack_ok, send_result)] ∧
    (iteration HMAC secret_key st
      ⟨.queued (client_payload HMAC secret_key message), send_result⟩).2.valid_hmacs
        = wrapInt32 (st.valid_hmacs + 1) ∧
    (0 ≤ st.valid_hmacs → st.valid_hmacs < 2147483647 →
      (iteration HMAC secret_key st
        ⟨.queued (client_payload HMAC secret_key message), send_result⟩).2.valid_hmacs
          = st.valid_hmacs + 1) ∧
    (iteration HMAC secret_key st
      ⟨.queued (client_payload HMAC secret_key message), send_result⟩).2.invalid_hmacs
        = st.invalid_hmacs := by
  rw [iteration_client_payload HMAC secret_key message st send_result (by omega)]
  refine ⟨rfl, rfl, rfl, ?_, rfl⟩
  intro h0 h1
  exact wrapInt32_of_range _ (by omega) (by omega)

/-- Witness for C3: key `"my-secret-key"`, payload `"AAAA"`, the server in its initial state. -/
theorem client_frame_acknowledged_witness :
    (iteration hmacSha256 default_key initial
      ⟨.queued (client_payload hmacSha256 default_key (client_message 4)), 2⟩).1 = .next ∧
    (iteration hmacSha256 default_key initial
      ⟨.queued (client_payload hmacSha256 default_key (client_message 4)), 2⟩).2.sent
        = initial.sent ++ [(ack_ok, 2)] ∧
    (iteration hmacSha256 default_key initial
      ⟨.queued (client_payload hmacSha256 default_key (client_message 4)), 2⟩).2.valid_hmacs
        = wrapInt32 (initial.valid_hmacs + 1) ∧
    (0 ≤ initial.valid_hmacs → initial.valid_hmacs < 2147483647 →
      (iteration hmacSha256 default_key initial
        ⟨.queued (client_payload hmacSha256 default_key (client_message 4)), 2⟩).2.valid_hmacs
          = initial.valid_hmacs + 1) ∧
    (iteration hmacSha256 default_key initial
      ⟨.queued (client_payload hmacSha256 default_key (client_message 4)), 2⟩).2.invalid_hmacs
        = initial.invalid_hmacs :=
  client_frame_acknowledged hmacSha256 default_key (client_message 4) initial 2
    initial_buffer_length
    (by rw [client_payload_length, hmacSha256_length]; decide)

/-- Counterexample to C3 as stated: with key `"my-secret-key"` the client run with
`--size 8128` builds a frame of 8193 bytes; the server reads 8192 of them, computes the tag of
the first 8127 bytes of the message, passes `"FAIL"` to `send` and counts the frame as
invalid. -/
theorem long_client_frame_rejected :
    (client_payload hmacSha256 default_key (client_message 8128)).length = 8193 ∧
    received initial ⟨.queued (client_payload hmacSha256 default_key (client_message 8128)), 4⟩
      = bin_to_hex (hmacSha256 default_key (client_message 8128)) ++ colon ::
          client_message 8127 ∧
    (iteration hmacSha256 default_key initial
      ⟨.queued (client_payload hmacSha256 default_key (client_message 8128)), 4⟩).1 = .next ∧
    (iteration hmacSha256 default_key initial
      ⟨.queued (client_payload hmacSha256 default_key (client_message 8128)), 4⟩).2.sent
        = [(ack_fail, 4)] ∧
    (iteration hmacSha256 default_key initial
      ⟨.queued (client_payload hmacSha256 default_key (client_message 8128)), 4⟩).2.valid_hmacs
        = 0 ∧
    (iteration hmacSha256 default_key initial
      ⟨.queued (client_payload hmacSha256 default_key (client_message 8128)), 4⟩).2.invalid_hmacs
        = 1 := by
  have hrecv : received initial
      ⟨.queued (client_payload hmacSha256 default_key (client_message 8128)), 4⟩
      = bin_to_hex (hmacSha256 default_key (client_message 8128)) ++ colon ::
          client_message 8127 := by
    rw [received_client_payload_truncated _ _ _ _ _
      (by rw [hmacSha256_length, initial_buffer_length]; decide),
      hmacSha256_length, initial_buffer_length,
      take_client_message (8192 - 2 * 32 - 1) 8128 (by decide)]
  have hp := parse_append_colon (bin_to_hex (hmacSha256 default_key (client_message 8128)))
    (client_message 8127) (colon_not_mem_bin_to_hex _)
  rw [← hrecv] at hp
  have hv : verify hmacSha256 default_key
      (bin_to_hex (hmacSha256 default_key (client_message 8128))) (client_message 8127)
      = false := by
    unfold verify
    rw [calculate_hmac_eq, hmacSha256_A8128, hmacSha256_A8127]
    decide
  refine ⟨?_, hrecv, ?_⟩
  · rw [client_payload_length, hmacSha256_length, client_message_length]
  · rw [iteration_of_parse_ok hmacSha256 default_key initial _ _ _ hp, hv]
    exact ⟨rfl, rfl, rfl, rfl⟩

/-! ## A tampered tag -/

/-- C4, with the increment read as `++` on a 32-bit counter: let the MAC primitive return 32
bytes. For every key and payload (of any length), when the string the server parses is the
client's frame with one of the 64 characters of its tag text replaced by a different character
(any byte, `':'` included), the string still parses, the loop body passes `"FAIL"` to `send`,
`invalid_hmacs` goes through `++` (it increases by exactly one from every 32-bit value other
than `2147483647`) and `valid_hmacs` is unchanged; and an iteration whose `recv` delivers that
string is this run of the loop body. -/
theorem tampered_tag_rejected (HMAC : List Byte → List Byte → List Byte)
    (hlen : ∀ key data, (HMAC key data).length = 32) (secret_key payload : List Byte)
    (st : ServerState) (send_result : Int) (i : Nat) (c : Byte) (hi : i < 64)
    (hc : (client_payload HMAC secret_key payload)[i]? ≠ some c) :
    parse ((client_payload HMAC secret_key payload).set i c) ≠ .invalid_format ∧
    parse ((client_payload HMAC secret_key payload).set i c) ≠ .out_of_range ∧
    (process HMAC secret_key st ((client_payload HMAC secret_key payload).set i c)
      send_result).1 = .next ∧
    (process HMAC secret_key st ((client_payload HMAC secret_key payload).set i c)
      send_result).2.sent = st.sent ++ [(ack_fail, send_result)] ∧
    (process HMAC secret_key st ((client_payload HMAC secret_key payload).set i c)
      send_result).2.invalid_hmacs = wrapInt32 (st.invalid_hmacs + 1) ∧
    (-2147483648 ≤ st.invalid_hmacs → st.invalid_hmacs < 2147483647 →
      (process HMAC secret_key st ((client_payload HMAC secret_key payload).set i c)
        send_result).2.invalid_hmacs = st.invalid_hmacs + 1) ∧
    (process HMAC secret_key st ((client_payload HMAC secret_key payload).set i c)
      send_result).2.valid_hmacs = st.valid_hmacs ∧
    (∀ env : Env, received st env = (client_payload HMAC secret_key payload).set i c →
      iteration HMAC secret_key st env
        = process HMAC secret_key { st with buffer := (recv env.incoming st.buffer).2 }
            ((client_payload HMAC secret_key payload).set i c) env.send_result) := by
  obtain ⟨hex, msg, hp, hv⟩ := tampered_not_verified HMAC hlen secret_key payload i c hi hc
  rw [process_of_parse_ok HMAC secret_key st _ send_result hex msg hp, hv, hp]
  refine ⟨by simp, by simp, rfl, by simp, by simp, ?_, by simp, ?_⟩
  · intro h0 h1
    simpa using wrapInt32_of_range _ (by omega) (by omega)
  · intro env hrecv
    have hmem : colon ∈ received st env := by
      by_contra hn
      rw [hrecv] at hn
      rw [(parse_eq_invalid_format_iff _).2 hn] at hp
      cases hp
    rw [iteration_of_pos HMAC secret_key st env
      (bytes_received_pos_of_received st env colon hmem), hrecv]

/-- Witness for C4: key `"my-secret-key"`, payload `"AAAA"`, the server in its initial state;
the first character of the tag text, `'9'`, is replaced by `':'`. -/
theorem tampered_tag_rejected_witness :
    parse ((client_payload hmacSha256 default_key (client_message 4)).set 0 58)
      ≠ .invalid_format ∧
    parse ((client_payload hmacSha256 default_key (client_message 4)).set 0 58)
      ≠ .out_of_range ∧
    (process hmacSha256 default_key initial
      ((client_payload hmacSha256 default_key (client_message 4)).set 0 58) 4).1 = .next ∧
    (process hmacSha256 default_key initial
      ((client_payload hmacSha256 default_key (client_message 4)).set 0 58) 4).2.sent
        = initial.sent ++ [(ack_fail, 4)] ∧
    (process hmacSha256 default_key initial
      ((client_payload hmacSha256 default_key (client_message 4)).set 0 58) 4).2.invalid_hmacs
        = wrapInt32 (initial.invalid_hmacs + 1) ∧
    (-2147483648 ≤ initial.invalid_hmacs → initial.invalid_hmacs < 2147483647 →
      (process hmacSha256 default_key initial
        ((client_payload hmacSha256 default_key (client_message 4)).set 0 58) 4).2.invalid_hmacs
          = initial.invalid_hmacs + 1) ∧
    (process hmacSha256 default_key initial
      ((client_payload hmacSha256 default_key (client_message 4)).set 0 58) 4).2.valid_hmacs
        = initial.valid_hmacs ∧
    (∀ env : Env,
      received initial env = (client_payload hmacSha256 default_key (client_message 4)).set 0 58 →
      iteration hmacSha256 default_key initial env
        = process hmacSha256 default_key
            { initial with buffer := (recv env.incoming initial.buffer).2 }
            ((client_payload hmacSha256 default_key (client_message 4)).set 0 58)
            env.send_result) :=
  tampered_tag_rejected hmacSha256 hmacSha256_length default_key (client_message 4) initial 4
    0 58 (by decide) (by rw [client_payload_eq, hmacSha256_AAAA]; decide)

/-- Counterexample to C4 as stated: the forged frame `"a:b"` arrives `2 ^ 31 - 1` times, so the
loop is at the start of an iteration with `invalid_hmacs = 2147483647`. Then the client's frame
for `"AAAA"` arrives with the first character of its tag text replaced by `':'`: the iteration
passes `"FAIL"` to `send`, and `invalid_hmacs` is `-2147483648` afterwards, not `2147483648`. -/
theorem tampered_tag_at_int_max :
    (session hmacSha256 default_key (List.replicate 2147483647 forged_frame_arrives)
      initial).1 = .next ∧
    (session hmacSha256 default_key (List.replicate 2147483647 forged_frame_arrives)
      initial).2.invalid_hmacs = 2147483647 ∧
    (iteration hmacSha256 default_key
      (session hmacSha256 default_key (List.replicate 2147483647 forged_frame_arrives)
        initial).2 ⟨.queued tampered_frame, 4⟩).1 = .next ∧
    (iteration hmacSha256 default_key
      (session hmacSha256 default_key (List.replicate 2147483647 forged_frame_arrives)
        initial).2 ⟨.queued tampered_frame, 4⟩).2.sent
      = (session hmacSha256 default_key (List.replicate 2147483647 forged_frame_arrives)
          initial).2.sent ++ [(ack_fail, 4)] ∧
    (iteration hmacSha256 default_key
      (session hmacSha256 default_key (List.replicate 2147483647 forged_frame_arrives)
        initial).2 ⟨.queued tampered_frame, 4⟩).2.invalid_hmacs = -2147483648 ∧
    (process hmacSha256 default_key
      (session hmacSha256 default_key (List.replicate 2147483647 forged_frame_arrives)
        initial).2 tampered_frame 4).2.invalid_hmacs = -2147483648 := by
  obtain ⟨a, b, _⟩ := session_replicate_forged_frame 2147483646 initial initial_buffer_length
  have hb : wrapInt32 (initial.invalid_hmacs + ((2147483646 + 1 : Nat) : Int))
      = 2147483647 := by
    decide
  rw [hb] at b
  have hw : wrapInt32 (2147483647 + 1) = -2147483648 := by decide
  obtain ⟨hex, msg, hp, hv⟩ := tampered_frame_parse
  have hrecv : received
      (session hmacSha256 default_key (List.replicate 2147483647 forged_frame_arrives)
        initial).2 ⟨.queued tampered_frame, 4⟩ = tampered_frame :=
    received_queued_fits _ _ _
      (by rw [session_buffer_length, initial_buffer_length, tampered_frame_length]; decide)
  have hp' := hp
  rw [← hrecv] at hp'
  rw [iteration_of_parse_ok hmacSha256 default_key _ _ hex msg hp',
    process_of_parse_ok hmacSha256 default_key _ _ 4 hex msg hp, hv]
  dsimp only
  simp only [Bool.false_eq_true, if_false]
  rw [b, hw]
  refine ⟨a, ?_, ?_, ?_, ?_, ?_⟩ <;> first | rfl | trivial

/-! ## A failed `send` -/

/-- C7, the code on the failing input: the server receives a valid frame and its `send` of the
acknowledgement fails (returns `-1`); the loop goes on, reads the next frame, acknowledges it and
ends with `message_count = 2`. -/
theorem session_continues_after_failed_send :
    (iteration hmacSha256 default_key initial frame_arrives_send_fails).1 = .next ∧
    (iteration hmacSha256 default_key initial frame_arrives_send_fails).2.sent
      = [(ack_ok, -1)] ∧
    (session hmacSha256 default_key [frame_arrives_send_fails, frame_arrives] initial).1
      = .next ∧
    (session hmacSha256 default_key [frame_arrives_send_fails, frame_arrives]
      initial).2.message_count = 2 ∧
    (session hmacSha256 default_key [frame_arrives_send_fails, frame_arrives] initial).2.sent
      = [(ack_ok, -1), (ack_ok, 2)] := by
  have h1 := iteration_frame_arrives_send_fails initial initial_buffer_length
  have h2 := iteration_frame_arrives
    { message_count := wrapInt32 (initial.message_count + 1),
      valid_hmacs := wrapInt32 (initial.valid_hmacs + 1),
      invalid_hmacs := initial.invalid_hmacs,
      buffer := (recv frame_arrives.incoming initial.buffer).2,
      sent := initial.sent ++ [(ack_ok, -1)] }
    (by rw [recv_buffer_length, initial_buffer_length])
  rw [session_cons_of_next hmacSha256 default_key frame_arrives_send_fails [frame_arrives]
    initial _ h1, session_cons_of_next hmacSha256 default_key frame_arrives [] _ _ h2, h1]
  exact ⟨rfl, rfl, rfl, rfl, rfl⟩

/-! ## The counters -/

/-- C10, for sessions in which the 32-bit counters do not overflow: in every state `s` that the
loop reaches from all counters zero through fewer than `2 ^ 31 - 1` iterations (at the start of
an iteration or at the end of the session), `message_count = valid_hmacs + invalid_hmacs`; an
iteration from `s` that processes its frame fully increases `message_count` by one and exactly
one of `valid_hmacs`, `invalid_hmacs` by one; an iteration that leaves the loop changes no
counter; no counter decreases, and the equation holds again afterwards. -/
theorem counters_invariant (HMAC : List Byte → List Byte → List Byte) (secret_key : List Byte)
    (envs : List Env) (env : Env) (h : envs.length < 2147483647) :
    let s := (session HMAC secret_key envs initial).2
    let s' := (iteration HMAC secret_key s env).2
    s.message_count = s.valid_hmacs + s.invalid_hmacs ∧
    0 ≤ s.valid_hmacs ∧ 0 ≤ s.invalid_hmacs ∧
    ((iteration HMAC secret_key s env).1 = .next →
      s'.message_count = s.message_count + 1 ∧
      ((s'.valid_hmacs = s.valid_hmacs + 1 ∧ s'.invalid_hmacs = s.invalid_hmacs) ∨
        (s'.valid_hmacs = s.valid_hmacs ∧ s'.invalid_hmacs = s.invalid_hmacs + 1))) ∧
    ((iteration HMAC secret_key s env).1 ≠ .next →
      s'.message_count = s.message_count ∧ s'.valid_hmacs = s.valid_hmacs ∧
      s'.invalid_hmacs = s.invalid_hmacs) ∧
    s.message_count ≤ s'.message_count ∧ s.valid_hmacs ≤ s'.valid_hmacs ∧
    s.invalid_hmacs ≤ s'.invalid_hmacs ∧
    s'.message_count = s'.valid_hmacs + s'.invalid_hmacs := by
  intro s s'
  obtain ⟨a, b, c, d⟩ := session_counters HMAC secret_key envs initial rfl (le_refl _)
    (le_refl _) (by show (0 : Int) + _ ≤ _; omega)
  have b' : 0 ≤ s.valid_hmacs := b
  have c' : 0 ≤ s.invalid_hmacs := c
  have d' : s.message_count ≤ envs.length := by
    have : s.message_count ≤ (0 : Int) + envs.length := d
    omega
  have a' : s.message_count = s.valid_hmacs + s.invalid_hmacs := a
  rcases iteration_counters HMAC secret_key s env with ⟨hf, hm, hvi⟩ | ⟨hf, hm, hv, hi⟩
  · rw [wrapInt32_of_range _ (by omega) (by omega)] at hm
    have hvi' : (s'.valid_hmacs = s.valid_hmacs + 1 ∧ s'.invalid_hmacs = s.invalid_hmacs) ∨
        (s'.valid_hmacs = s.valid_hmacs ∧ s'.invalid_hmacs = s.invalid_hmacs + 1) := by
      rcases hvi with ⟨hv, hi⟩ | ⟨hv, hi⟩
      · rw [wrapInt32_of_range _ (by omega) (by omega)] at hv
        exact Or.inl ⟨hv, hi⟩
      · rw [wrapInt32_of_range _ (by omega) (by omega)] at hi
        exact Or.inr ⟨hv, hi⟩
    have hm' : s'.message_count = s.message_count + 1 := hm
    refine ⟨a', b', c', fun _ => ⟨hm', hvi'⟩, fun hne => absurd hf hne, ?_, ?_, ?_, ?_⟩ <;>
      rcases hvi' with ⟨hv, hi⟩ | ⟨hv, hi⟩ <;> omega
  · have hm' : s'.message_count = s.message_count := hm
    have hv' : s'.valid_hmacs = s.valid_hmacs := hv
    have hi' : s'.invalid_hmacs = s.invalid_hmacs := hi
    refine ⟨a', b', c', fun hn => ?_, fun _ => ⟨hm', hv', hi'⟩, ?_, ?_, ?_, ?_⟩
    · rw [hf] at hn
      cases hn
    all_goals omega

/-- Witness for C10: after a valid and a forged frame, a further valid frame arrives. -/
theorem counters_invariant_witness :
    let s := (session hmacSha256 default_key [frame_arrives, forged_frame_arrives] initial).2
    let s' := (iteration hmacSha256 default_key s frame_arrives).2
    s.message_count = s.valid_hmacs + s.invalid_hmacs ∧
    0 ≤ s.valid_hmacs ∧ 0 ≤ s.invalid_hmacs ∧
    ((iteration hmacSha256 default_key s frame_arrives).1 = .next →
      s'.message_count = s.message_count + 1 ∧
      ((s'.valid_hmacs = s.valid_hmacs + 1 ∧ s'.invalid_hmacs = s.invalid_hmacs) ∨
        (s'.valid_hmacs = s.valid_hmacs ∧ s'.invalid_hmacs = s.invalid_hmacs + 1))) ∧
    ((iteration hmacSha256 default_key s frame_arrives).1 ≠ .next →
      s'.message_count = s.message_count ∧ s'.valid_hmacs = s.valid_hmacs ∧
      s'.invalid_hmacs = s.invalid_hmacs) ∧
    s.message_count ≤ s'.message_count ∧ s.valid_hmacs ≤ s'.valid_hmacs ∧
    s.invalid_hmacs ≤ s'.invalid_hmacs ∧
    s'.message_count = s'.valid_hmacs + s'.invalid_hmacs :=
  counters_invariant hmacSha256 default_key [frame_arrives, forged_frame_arrives] frame_arrives
    (by decide)

/-- Counterexample to C10 as stated: the same valid frame arrives `2 ^ 31 - 1` times. The loop
is then at the start of an iteration with `valid_hmacs = message_count = 2147483647`; the next
frame is processed fully, and `valid_hmacs` and `message_count` are `-2147483648` afterwards:
both counters have decreased. -/
theorem counters_wrap_around :
    (session hmacSha256 default_key (List.replicate 2147483647 frame_arrives) initial).1
      = .next ∧
    (session hmacSha256 default_key (List.replicate 2147483647 frame_arrives)
      initial).2.valid_hmacs = 2147483647 ∧
    (session hmacSha256 default_key (List.replicate 2147483647 frame_arrives)
      initial).2.message_count = 2147483647 ∧
    (iteration hmacSha256 default_key
      (session hmacSha256 default_key (List.replicate 2147483647 frame_arrives) initial).2
      frame_arrives).1 = .next ∧
    (iteration hmacSha256 default_key
      (session hmacSha256 default_key (List.replicate 2147483647 frame_arrives) initial).2
      frame_arrives).2.valid_hmacs = -2147483648 ∧
    (iteration hmacSha256 default_key
      (session hmacSha256 default_key (List.replicate 2147483647 frame_arrives) initial).2
      frame_arrives).2.message_count = -2147483648 := by
  obtain ⟨a, b, c⟩ := session_replicate_frame_arrives 2147483647 (by decide) initial
    initial_buffer_length
  have hv : wrapInt32 (initial.valid_hmacs + ((2147483647 : Nat) : Int)) = 2147483647 := by
    decide
  have hm : wrapInt32 (initial.message_count + ((2147483647 : Nat) : Int)) = 2147483647 := by
    decide
  rw [hm] at b
  rw [hv] at c
  have hw : wrapInt32 (2147483647 + 1) = -2147483648 := by decide
  rw [iteration_frame_arrives _ (by rw [session_buffer_length, initial_buffer_length])]
  dsimp only
  rw [b, c, hw]
  exact ⟨a, rfl, rfl, rfl, rfl, rfl⟩

end Hmac
